import Mathlib

/-!
# Verification of the CodeLab state-management core and AI suggestion coordinator

Shallow embedding of:

* `src/lib/state/StateEngine.ts` — the observable store with reducer dispatch,
  observers, and a bounded linear undo/redo history (`StateEngine` class);
* `src/lib/state/editorState.ts` — the editor domain store
  (`createEditorStateEngine`, `createInitialEditorState`);
* `src/hooks/useAI.ts` — the AI suggestion coordinator (`useAI` hook).

JavaScript objects are modelled as `Obj V`: a value of type `V` tagged with an
allocation identifier `ref : Nat` standing for the object's heap reference.
An object-spread copy `{ ...x }` allocates a fresh reference carrying the same
value; the engine threads a `nextRef` allocation counter for this purpose, so
`===` / `!==` on objects is equality / disequality of `ref` fields.

Reducers in this repository either return the incoming state object unchanged
(`return state`, i.e. the identical reference) or build a fresh object literal
`{ ...state, ... }`; the type `RRes` records exactly these two outcomes.
The claims under study use engines without middleware, so the middleware chain
(which is empty in every scenario the spec's claims touch) is elided: with an
empty chain, `dispatch`'s `next()` goes directly to the reducer lookup.

Observers are arbitrary JS callbacks; what the engine depends on is only
whether a given observer throws when invoked, so an observer is modelled by an
identifier plus a `throws` flag, and `notifyObservers` returns the list of
notifications actually delivered together with the list of logged
(caught) observer errors.
-/

set_option autoImplicit false

namespace CodeLab

/-- A JavaScript object: heap reference identifier plus carried value. -/
structure Obj (V : Type) where
  ref : Nat
  val : V
deriving DecidableEq, Repr

/-- `Action` from StateEngine.ts: `{ type: string, payload?: T }`. -/
structure Action (P : Type) where
  type : String
  payload : Option P
deriving DecidableEq, Repr

/-- Result of running a reducer from this repository: either the identical
state reference (`return state`) or a fresh object literal with value `v`. -/
inductive RRes (V : Type) where
  | same : RRes V
  | mk (v : V) : RRes V
deriving DecidableEq, Repr

/-- `Reducer<S, P>`: `(state, payload?) => state'`. -/
def Reducer (V P : Type) : Type := V → Option P → RRes V

/-- An observer callback, abstracted to what the engine can observe of it:
an identity and whether invoking it throws. -/
structure ObserverSpec where
  id : Nat
  throws : Bool
deriving DecidableEq, Repr

/-- One delivered observer notification `(newState, prevState, action)`. -/
structure Notif (V P : Type) where
  obsId : Nat
  newState : Obj V
  prevState : Obj V
  action : Action P
deriving DecidableEq, Repr

/-- The `StateEngine<S>` instance fields (StateEngine.ts lines 63-72), plus
the allocation counter `nextRef` modelling the JS heap. -/
structure StateEngine (V P : Type) where
  state : Obj V
  initialState : Obj V
  reducers : String → Option (Reducer V P)
  observers : List ObserverSpec
  history : List (Obj V)
  historyIndex : Int
  historyDepth : Nat
  nextRef : Nat

namespace StateEngine

variable {V P : Type}

/-- First step of `pushHistory` (StateEngine.ts lines 224-227): remove any
future history when the cursor is not at the end,
`this.history = this.history.slice(0, this.historyIndex + 1)`. -/
def truncateFuture (e : StateEngine V P) : List (Obj V) :=
  if e.historyIndex < (e.history.length : Int) - 1 then
    e.history.take (e.historyIndex + 1).toNat
  else
    e.history

/-- Second step of `pushHistory` (StateEngine.ts line 230): append a spread
copy of the current state, `this.history.push({ ...this.state })`. -/
def pushedHistory (e : StateEngine V P) : List (Obj V) :=
  truncateFuture e ++ [⟨e.nextRef, e.state.val⟩]

/-- `pushHistory` (StateEngine.ts lines 223-238): truncate any future history,
push a spread copy of the current state, set the cursor to the last entry, and
evict the oldest entry (`this.history.shift(); this.historyIndex--`) when the
depth bound is exceeded. -/
def pushHistory (e : StateEngine V P) : StateEngine V P :=
  if (pushedHistory e).length > e.historyDepth then
    { e with history := (pushedHistory e).tail,
             historyIndex := ((pushedHistory e).length : Int) - 1 - 1,
             nextRef := e.nextRef + 1 }
  else
    { e with history := pushedHistory e,
             historyIndex := ((pushedHistory e).length : Int) - 1,
             nextRef := e.nextRef + 1 }

/-- The constructor (StateEngine.ts lines 74-80): spread copies of the initial
state into `initialState` and `state`, then one `pushHistory`. -/
def new (v0 : V) (depth : Nat) (rds : String → Option (Reducer V P))
    (obs : List ObserverSpec) : StateEngine V P :=
  pushHistory
    { state := ⟨1, v0⟩
      initialState := ⟨0, v0⟩
      reducers := rds
      observers := obs
      history := []
      historyIndex := -1
      historyDepth := depth
      nextRef := 2 }

/-- Default history depth: `options.historyDepth ?? 50`. -/
def defaultHistoryDepth : Nat := 50

/-- `notifyObservers` (StateEngine.ts lines 240-248): `forEach` over the
observer set, each call wrapped in `try { observer(...) } catch { log }`.
Returns (delivered notifications, logged observer-error ids): a throwing
observer still produces its (attempted) call, its exception is converted to a
log entry, and iteration continues with the next observer. -/
def notifyObservers (observers : List ObserverSpec) (newS prevS : Obj V)
    (a : Action P) : List (Notif V P) × List Nat :=
  observers.foldl
    (fun acc o =>
      let delivered := acc.1 ++ [⟨o.id, newS, prevS, a⟩]
      if o.throws then (delivered, acc.2 ++ [o.id]) else (delivered, acc.2))
    ([], [])

/-- The state-and-history part of `dispatch` (StateEngine.ts lines 124-141),
i.e. the end of the `next()` chain for an engine whose middleware chain is
empty: look up the reducer for `action.type`; if found, assign its result to
`this.state` and call `pushHistory`; otherwise leave the engine untouched. -/
def dispatchCore (e : StateEngine V P) (a : Action P) : StateEngine V P :=
  match e.reducers a.type with
  | some r =>
    match r e.state.val a.payload with
    | .same => pushHistory e
    | .mk v => pushHistory { e with state := ⟨e.nextRef, v⟩, nextRef := e.nextRef + 1 }
  | none => e

/-- `dispatch` (StateEngine.ts lines 116-147): run the reducer step, then
notify observers iff `this.state !== prevState` (reference comparison).
Returns the updated engine together with the `notifyObservers` output. -/
def dispatch (e : StateEngine V P) (a : Action P) :
    StateEngine V P × (List (Notif V P) × List Nat) :=
  if (dispatchCore e a).state.ref = e.state.ref then
    (dispatchCore e a, ([], []))
  else
    (dispatchCore e a,
     notifyObservers (dispatchCore e a).observers (dispatchCore e a).state e.state a)

/-- `undo` (StateEngine.ts lines 171-183): when the cursor can move left,
decrement it and replace the state with a spread copy of the snapshot at the
new cursor, notifying observers with the `@@UNDO` marker. -/
def undo (e : StateEngine V P) :
    StateEngine V P × Bool × (List (Notif V P) × List Nat) :=
  if 0 < e.historyIndex then
    match e.history[(e.historyIndex - 1).toNat]? with
    | some hs =>
      ({ e with historyIndex := e.historyIndex - 1, state := ⟨e.nextRef, hs.val⟩,
                nextRef := e.nextRef + 1 },
       true,
       notifyObservers e.observers ⟨e.nextRef, hs.val⟩ e.state ⟨"@@UNDO", none⟩)
    | none => ({ e with historyIndex := e.historyIndex - 1 }, false, ([], []))
  else (e, false, ([], []))

/-- `redo` (StateEngine.ts lines 188-200): symmetric to `undo`, moving the
cursor right while it is strictly before the last history entry. -/
def redo (e : StateEngine V P) :
    StateEngine V P × Bool × (List (Notif V P) × List Nat) :=
  if e.historyIndex < (e.history.length : Int) - 1 then
    match e.history[(e.historyIndex + 1).toNat]? with
    | some hs =>
      ({ e with historyIndex := e.historyIndex + 1, state := ⟨e.nextRef, hs.val⟩,
                nextRef := e.nextRef + 1 },
       true,
       notifyObservers e.observers ⟨e.nextRef, hs.val⟩ e.state ⟨"@@REDO", none⟩)
    | none => ({ e with historyIndex := e.historyIndex + 1 }, false, ([], []))
  else (e, false, ([], []))

/-- `canUndo` (StateEngine.ts lines 205-207). -/
def canUndo (e : StateEngine V P) : Bool := 0 < e.historyIndex

/-- `canRedo` (StateEngine.ts lines 212-214). -/
def canRedo (e : StateEngine V P) : Bool := e.historyIndex < (e.history.length : Int) - 1

/-- `getHistoryLength` (StateEngine.ts lines 219-221). -/
def getHistoryLength (e : StateEngine V P) : Nat := e.history.length

/-- `getState` (StateEngine.ts lines 85-87): returns the current state object. -/
def getState (e : StateEngine V P) : Obj V := e.state

/-- The engine resulting from an `undo()` call (discarding the returned flag). -/
def undoE (e : StateEngine V P) : StateEngine V P := (undo e).1

/-- The engine resulting from a `redo()` call (discarding the returned flag). -/
def redoE (e : StateEngine V P) : StateEngine V P := (redo e).1

/-- `n` consecutive `undo()` calls. -/
def undoN : Nat → StateEngine V P → StateEngine V P
  | 0, e => e
  | n + 1, e => undoN n (undoE e)

/-- `n` consecutive `redo()` calls. -/
def redoN : Nat → StateEngine V P → StateEngine V P
  | 0, e => e
  | n + 1, e => redoN n (redoE e)

/-- Dispatching a list of actions in order. -/
def dispatchList (e : StateEngine V P) (acts : List (Action P)) : StateEngine V P :=
  acts.foldl (fun e a => (dispatch e a).1) e

/-- One public state-mutating engine operation: a `dispatch`, an `undo` or a
`redo` (`reset` is not exercised by the claims under study). -/
inductive Step : StateEngine V P → StateEngine V P → Prop where
  | dispatch (e : StateEngine V P) (a : Action P) : Step e (dispatch e a).1
  | undo (e : StateEngine V P) : Step e (undoE e)
  | redo (e : StateEngine V P) : Step e (redoE e)

/-- Engine states reachable from `e0` by dispatch/undo/redo calls. -/
def Reachable (e0 e : StateEngine V P) : Prop :=
  Relation.ReflTransGen Step e0 e

/-- Well-formedness of an engine: the cursor is in range (or `-1` for an empty
history), the history respects the depth bound, and every reachable object
reference was allocated below the allocation counter. -/
def Inv (e : StateEngine V P) : Prop :=
  -1 ≤ e.historyIndex ∧ e.historyIndex < (e.history.length : Int) ∧
  e.history.length ≤ e.historyDepth ∧
  (∀ o ∈ e.history, o.ref < e.nextRef) ∧ e.state.ref < e.nextRef

/-- The cursor sits on the last history entry and that entry carries the
current state's value (the configuration left behind by every `pushHistory`). -/
def AtTail (e : StateEngine V P) : Prop :=
  e.historyIndex = (e.history.length : Int) - 1 ∧
  ∀ hs, e.history[e.history.length - 1]? = some hs → e.state.val = hs.val

end StateEngine

/-! ## The AI suggestion coordinator (`src/hooks/useAI.ts`)

The hook's mutable cell state (`suggestion`, `isThinking`, `error`,
`activeRequestId`, `lastRequestTime`) is modelled as a record, and the three
phases of a request — the gate in `requestSuggestion` (lines 34-35), the
issuance in `startRequest` (lines 44-53), and the completion handlers
(success, lines 85-94; failure, lines 95-108; `finally`, lines 109-113) — as
explicit state transformers.  Time is in milliseconds (`Date.now()`). -/

namespace UseAI

/-- `AISuggestion` (useAI.ts lines 4-7). -/
structure AISuggestion where
  text : String
  pos : Nat
deriving DecidableEq, Repr

/-- Error kinds of `AIError` (useAI.ts line 11). -/
inductive AIErrorType where
  | quota
  | network
  | unknown
deriving DecidableEq, Repr

/-- `AIError` (useAI.ts lines 9-13); `retryAfter` is optional. -/
structure AIError where
  message : String
  etype : AIErrorType
  retryAfter : Option Nat
deriving DecidableEq, Repr

/-- The hook's state: `useState`/`useRef` cells of `useAI` (lines 19-24). -/
structure AIState where
  suggestion : Option AISuggestion
  isThinking : Bool
  error : Option AIError
  activeRequestId : Nat
  lastRequestTime : Nat
deriving DecidableEq, Repr

/-- Initial hook state: `null`, `false`, `null`, `0`, `0`. -/
def initialAIState : AIState :=
  { suggestion := none, isThinking := false, error := none,
    activeRequestId := 0, lastRequestTime := 0 }

/-- JavaScript `String.prototype.includes`: `sub` occurs as a contiguous
substring of `s`. -/
def strIncludes (s sub : String) : Bool :=
  decide (List.IsInfix sub.toList s.toList)

/-- The leading-fence strip `text.replace(/^\x60\x60\x60[a-z]*\n/i, '')`
(useAI.ts line 90): drop an opening triple backtick, an optional run of
letters, and the newline that must follow. -/
def stripLeadingFence (l : List Char) : List Char :=
  match l with
  | '`' :: '`' :: '`' :: rest =>
    match rest.dropWhile Char.isAlpha with
    | '\n' :: tail => tail
    | _ => l
  | _ => l

/-- The trailing-fence strip `.replace(/\n\x60\x60\x60$/i, '')`
(useAI.ts line 90): drop a final newline followed by a closing triple
backtick. -/
def stripTrailingFence (l : List Char) : List Char :=
  match l.reverse with
  | '`' :: '`' :: '`' :: '\n' :: rest => rest.reverse
  | _ => l

/-- `cleanText` (useAI.ts line 90): strip a wrapping code fence and trim. -/
def cleanText (text : String) : String :=
  (String.mk (stripTrailingFence (stripLeadingFence text.toList))).trim

/-- The entry gate of `requestSuggestion` (useAI.ts lines 34-35): the request
proceeds only when an API key is configured, the context has at least 5
characters, and — for automatic (non-manual) triggers — no error state is
active (`if (error && !isManual) return`). -/
def requestGate (apiKeyPresent : Bool) (contextLen : Nat) (s : AIState)
    (isManual : Bool) : Bool :=
  apiKeyPresent && decide (5 ≤ contextLen) && (s.error.isNone || isManual)

/-- `startRequest` up to the issuance of the network call
(useAI.ts lines 44-53): the 1000ms minimum-spacing guard
`if (now - lastRequestTime.current < 1000 && !isManual) return`, then
`lastRequestTime = now`, `setIsThinking(true)`, `setError(null)`, and the
epoch capture `requestId = ++activeRequestId.current`.  Returns the new hook
state and `some capturedEpoch` when a network call is issued, `none` when the
call is dropped. -/
def startRequest (s : AIState) (now : Nat) (isManual : Bool) :
    AIState × Option Nat :=
  if now - s.lastRequestTime < 1000 && !isManual then (s, none)
  else
    ({ s with lastRequestTime := now
              isThinking := true
              error := none
              activeRequestId := s.activeRequestId + 1 },
     some (s.activeRequestId + 1))

/-- The success-completion handler (useAI.ts lines 85-94 and the `finally`
block, lines 109-113), applied when the provider resolves with the trimmed
response text `text` for the request with captured epoch `requestId`:
a stale completion (`requestId !== activeRequestId.current`) leaves the state
untouched; otherwise the suggestion is set to the cleaned text at `pos`
(cleared when the text is empty) and `isThinking` is cleared. -/
def completeSuccess (s : AIState) (requestId : Nat) (text : String)
    (pos : Nat) : AIState :=
  if requestId ≠ s.activeRequestId then s
  else if text ≠ "" then
    { s with suggestion := some ⟨cleanText text, pos⟩, isThinking := false }
  else
    { s with suggestion := none, isThinking := false }

/-- The failure-completion handler (useAI.ts lines 95-108 and the `finally`
block): a stale completion leaves the state untouched; otherwise the error is
classified by message content (`'429'` or `'quota'` → quota with a 30000ms
cooldown, anything else → network with no explicit `retryAfter`), the
suggestion is cleared, and `isThinking` is cleared. -/
def completeFailure (s : AIState) (requestId : Nat) (errMessage : String) :
    AIState :=
  if requestId ≠ s.activeRequestId then s
  else if strIncludes errMessage "429" || strIncludes errMessage "quota" then
    { s with error := some { message := "Rate limit exceeded (Free Tier). Pausing AI..."
                             etype := .quota
                             retryAfter := some 30000 }
             suggestion := none
             isThinking := false }
  else
    { s with error := some { message := "AI connection failed"
                             etype := .network
                             retryAfter := none }
             suggestion := none
             isThinking := false }

/-- Delay of the error-clearing timer (useAI.ts lines 27-31):
`setTimeout(() => setError(null), error.retryAfter || 5000)` — JavaScript
`||` falls back to 5000 on an absent (or zero) `retryAfter`. -/
def errorClearDelay (e : AIError) : Nat :=
  match e.retryAfter with
  | some n => if n = 0 then 5000 else n
  | none => 5000

/-- Firing of the error-clearing timer: `setError(null)`. -/
def clearError (s : AIState) : AIState := { s with error := none }

end UseAI

/-! ## The editor domain store (`src/lib/state/editorState.ts`)

Character offsets are JavaScript numbers and may be out of range or negative;
they are modelled as `Int`, with `String.prototype.slice`'s clamping
normalization reproduced by `jsSliceIdx`. -/

/-- A `{ from: number; to: number }` selection range. -/
structure Range where
  fromPos : Int
  toPos : Int
deriving DecidableEq, Repr

/-- `EditorStateShape` (editorState.ts lines 6-21). -/
structure EditorStateShape where
  content : String
  cursorPosition : Int
  selection : Range
  filePath : Option String
  language : String
  isDirty : Bool
  lastSavedContent : String
deriving DecidableEq, Repr

/-- JavaScript `String.prototype.slice` index normalization: negative indices
count from the end (clamped below at 0), non-negative ones are clamped above
at the length. -/
def jsSliceIdx (len : Nat) (i : Int) : Nat :=
  if i < 0 then ((len : Int) + i).toNat else min i.toNat len

/-- JavaScript `s.slice(start, stop)` on a string. -/
def jsSlice2 (s : String) (start stop : Int) : String :=
  String.mk ((s.toList.take (jsSliceIdx s.length stop)).drop (jsSliceIdx s.length start))

/-- JavaScript `s.slice(start)` on a string (to the end). -/
def jsSlice1 (s : String) (start : Int) : String :=
  jsSlice2 s start s.length

/-- Payloads of the editor actions (the payload types appearing in
`EditorAction`, editorState.ts lines 26-35), gathered in one sum type so
every editor reducer can live in one `Reducer EditorStateShape` table. -/
inductive EditorPayload where
  | str (s : String)
  | num (n : Int)
  | optStr (s : Option String)
  | range (r : Range)
  | insertArg (position : Int) (text : String)
  | replaceArg (r : Range) (text : String)
deriving DecidableEq, Repr

/-- The reducer table registered by `createEditorStateEngine`
(editorState.ts lines 64-134).  For each action type, the absent payload
(`none`) follows the source's `??` defaults and `if (!payload) return state`
guards; a `some` payload of a variant other than the one in the
`EditorAction` union is not expressible in the TypeScript action type and is
mapped like the absent payload. -/
def editorReducers : String → Option (Reducer EditorStateShape EditorPayload)
  | "SET_CONTENT" => some (fun st p =>
      match p with
      | some (.str s) =>
        .mk { st with content := s, isDirty := decide (s ≠ st.lastSavedContent) }
      | _ =>
        -- `payload ?? ''` yields '' and `payload !== state.lastSavedContent`
        -- compares `undefined` against a string, which is `true`
        .mk { st with content := "", isDirty := true })
  | "SET_CURSOR" => some (fun st p =>
      match p with
      | some (.num n) => .mk { st with cursorPosition := n }
      | _ => .mk { st with cursorPosition := 0 })
  | "SET_SELECTION" => some (fun st p =>
      match p with
      | some (.range r) => .mk { st with selection := r }
      | _ => .mk { st with selection := ⟨0, 0⟩ })
  | "SET_FILE_PATH" => some (fun st p =>
      match p with
      | some (.optStr fp) => .mk { st with filePath := fp }
      | _ => .mk { st with filePath := none })
  | "SET_LANGUAGE" => some (fun st p =>
      match p with
      | some (.str s) => .mk { st with language := s }
      | _ => .mk { st with language := "plaintext" })
  | "MARK_SAVED" => some (fun st _ =>
      .mk { st with isDirty := false, lastSavedContent := st.content })
  | "INSERT_TEXT" => some (fun st p =>
      match p with
      | some (.insertArg position text) =>
        .mk { st with
              content := jsSlice2 st.content 0 position ++ text
                         ++ jsSlice1 st.content position
              cursorPosition := position + text.length
              isDirty := decide ((jsSlice2 st.content 0 position ++ text
                         ++ jsSlice1 st.content position) ≠ st.lastSavedContent) }
      | _ => .same)
  | "DELETE_RANGE" => some (fun st p =>
      match p with
      | some (.range r) =>
        .mk { st with
              content := jsSlice2 st.content 0 r.fromPos
                         ++ jsSlice1 st.content r.toPos
              cursorPosition := r.fromPos
              selection := ⟨r.fromPos, r.fromPos⟩
              isDirty := decide ((jsSlice2 st.content 0 r.fromPos
                         ++ jsSlice1 st.content r.toPos) ≠ st.lastSavedContent) }
      | _ => .same)
  | "REPLACE_RANGE" => some (fun st p =>
      match p with
      | some (.replaceArg r text) =>
        .mk { st with
              content := jsSlice2 st.content 0 r.fromPos ++ text
                         ++ jsSlice1 st.content r.toPos
              cursorPosition := r.fromPos + text.length
              selection := ⟨r.fromPos + text.length, r.fromPos + text.length⟩
              isDirty := decide ((jsSlice2 st.content 0 r.fromPos ++ text
                         ++ jsSlice1 st.content r.toPos) ≠ st.lastSavedContent) }
      | _ => .same)
  | _ => none

/-- `createInitialEditorState` with no overrides (editorState.ts lines 40-53);
the claims under study use the default initial document. -/
def createInitialEditorState : EditorStateShape :=
  { content := ""
    cursorPosition := 0
    selection := ⟨0, 0⟩
    filePath := none
    language := "plaintext"
    isDirty := false
    lastSavedContent := "" }

/-- `createEditorStateEngine` with no state overrides (editorState.ts
lines 58-137): a `StateEngine` over the default initial editor state with the
editor reducer table registered and no subscribed observers. -/
def createEditorStateEngine (depth : Nat) : StateEngine EditorStateShape EditorPayload :=
  StateEngine.new createInitialEditorState depth editorReducers []

/-- The `EditorAction` union (editorState.ts lines 26-35): the well-typed
actions of the editor store. -/
inductive EditorAction where
  | SET_CONTENT (payload : String)
  | SET_CURSOR (payload : Int)
  | SET_SELECTION (payload : Range)
  | SET_FILE_PATH (payload : Option String)
  | SET_LANGUAGE (payload : String)
  | MARK_SAVED
  | INSERT_TEXT (position : Int) (text : String)
  | DELETE_RANGE (payload : Range)
  | REPLACE_RANGE (r : Range) (text : String)
deriving DecidableEq, Repr

/-- Rendering a typed `EditorAction` as the dispatched `{ type, payload }`. -/
def EditorAction.toAction : EditorAction → Action EditorPayload
  | .SET_CONTENT s => ⟨"SET_CONTENT", some (.str s)⟩
  | .SET_CURSOR n => ⟨"SET_CURSOR", some (.num n)⟩
  | .SET_SELECTION r => ⟨"SET_SELECTION", some (.range r)⟩
  | .SET_FILE_PATH fp => ⟨"SET_FILE_PATH", some (.optStr fp)⟩
  | .SET_LANGUAGE s => ⟨"SET_LANGUAGE", some (.str s)⟩
  | .MARK_SAVED => ⟨"MARK_SAVED", none⟩
  | .INSERT_TEXT position text => ⟨"INSERT_TEXT", some (.insertArg position text)⟩
  | .DELETE_RANGE r => ⟨"DELETE_RANGE", some (.range r)⟩
  | .REPLACE_RANGE r text => ⟨"REPLACE_RANGE", some (.replaceArg r text)⟩

/-- The derived-flag invariant of the editor document: `isDirty` agrees with
`content ≠ lastSavedContent`. -/
def dirtyInvariant (st : EditorStateShape) : Prop :=
  st.isDirty = decide (st.content ≠ st.lastSavedContent)

/-! ## Concrete engines for the scenarios named by the spec

These mirror the repository's StateEngine test suite, which drives the engine
with a `set` reducer (`addReducer('set', (state, payload) => ({ ...state,
count: payload ?? 0 }))`) and a `noop` reducer (`addReducer('noop',
(state) => state)`); the state is abstracted to the stored number. -/

/-- Reducer table with the single value-setting reducer `set`. -/
def setReducers : String → Option (Reducer Int Int)
  | "set" => some (fun _ p => .mk (p.getD 0))
  | _ => none

/-- Reducer table with the single reference-preserving reducer `noop`. -/
def noopReducers : String → Option (Reducer Int Int)
  | "noop" => some (fun _ _ => .same)
  | _ => none

/-- A `{ type: 'set', payload: n }` action. -/
def setAct (n : Int) : Action Int := ⟨"set", some n⟩

/-- An engine with a `noop` reducer and one subscribed observer. -/
def engineNoop : StateEngine Int Int :=
  StateEngine.new 0 StateEngine.defaultHistoryDepth noopReducers [⟨0, false⟩]

/-- A fresh engine configured with `historyDepth: 3`. -/
def engineDepth3 : StateEngine Int Int := StateEngine.new 0 3 setReducers []

/-- `engineDepth3` after five state-changing `set` dispatches. -/
def engineDepth3After5 : StateEngine Int Int :=
  StateEngine.dispatchList engineDepth3
    [setAct 1, setAct 2, setAct 3, setAct 4, setAct 5]

/-- A fresh engine with the default history depth (50). -/
def engineDefault : StateEngine Int Int :=
  StateEngine.new 0 StateEngine.defaultHistoryDepth setReducers []

/-- `engineDefault` after dispatching `set 1`, `set 2`, `set 3` and undoing
twice: the current state holds `1` and the cursor sits mid-history. -/
def engineMid : StateEngine Int Int :=
  StateEngine.undoE (StateEngine.undoE
    (StateEngine.dispatchList engineDefault [setAct 1, setAct 2, setAct 3]))

/-- `engineMid` after dispatching `set 99` — the history-branching scenario. -/
def engineBranch : StateEngine Int Int :=
  (StateEngine.dispatch engineMid (setAct 99)).1

/-- An engine with the `set` reducer and two subscribed observers: the first
subscribed observer throws when invoked, the second (registered later) does
not. -/
def engineObs : StateEngine Int Int :=
  StateEngine.new 0 StateEngine.defaultHistoryDepth setReducers
    [⟨0, true⟩, ⟨1, false⟩]

/-- Hook state after issuing request A at t=2000 from the initial state:
epoch 1 captured. -/
def aiStateA : UseAI.AIState :=
  { suggestion := none, isThinking := true, error := none,
    activeRequestId := 1, lastRequestTime := 2000 }

/-- Hook state after additionally issuing request B at t=5000: epoch 2
captured, so any completion of A is stale. -/
def aiStateB : UseAI.AIState :=
  { suggestion := none, isThinking := true, error := none,
    activeRequestId := 2, lastRequestTime := 5000 }

namespace StateEngine

variable {V P : Type}

theorem truncateFuture_length_le (e : StateEngine V P) :
    (truncateFuture e).length ≤ e.history.length := by
  unfold truncateFuture
  split
  · rw [List.length_take]; exact min_le_right _ _
  · exact le_rfl

theorem pushedHistory_length (e : StateEngine V P) :
    (pushedHistory e).length = (truncateFuture e).length + 1 := by
  simp [pushedHistory]

theorem pushedHistory_last (e : StateEngine V P) :
    (pushedHistory e)[(truncateFuture e).length]? = some ⟨e.nextRef, e.state.val⟩ :=
  List.getElem?_concat_length _ _

theorem pushHistory_state (e : StateEngine V P) : (pushHistory e).state = e.state := by
  unfold pushHistory
  split <;> rfl

theorem pushHistory_observers (e : StateEngine V P) :
    (pushHistory e).observers = e.observers := by
  unfold pushHistory
  split <;> rfl

theorem pushHistory_reducers (e : StateEngine V P) :
    (pushHistory e).reducers = e.reducers := by
  unfold pushHistory
  split <;> rfl

theorem pushHistory_historyDepth (e : StateEngine V P) :
    (pushHistory e).historyDepth = e.historyDepth := by
  unfold pushHistory
  split <;> rfl

theorem pushHistory_initialState (e : StateEngine V P) :
    (pushHistory e).initialState = e.initialState := by
  unfold pushHistory
  split <;> rfl

theorem pushHistory_atTail (e : StateEngine V P) : AtTail (pushHistory e) := by
  unfold pushHistory AtTail
  split
  · rename_i htrim
    rw [pushedHistory_length] at htrim ⊢
    constructor
    · simp only [List.length_tail, pushedHistory_length]
      push_cast [Nat.sub_sub]
      omega
    · intro hs hget
      rcases h1 : truncateFuture e with _ | ⟨a, l⟩
      · simp [pushedHistory, h1] at hget
      · have hexp : pushedHistory e = a :: (l ++ [(⟨e.nextRef, e.state.val⟩ : Obj V)]) := by
          simp [pushedHistory, h1]
        rw [hexp] at hget
        simp only [List.tail_cons, List.length_append, List.length_cons,
          List.length_nil, Nat.add_sub_cancel] at hget
        rw [List.getElem?_concat_length] at hget
        cases hget
        rfl
  · rename_i htrim
    constructor
    · simp
    · intro hs hget
      rw [pushedHistory_length, Nat.add_sub_cancel, pushedHistory_last] at hget
      cases hget
      rfl

theorem pushHistory_inv {e : StateEngine V P}
    (h1 : -1 ≤ e.historyIndex) (h2 : e.historyIndex < (e.history.length : Int))
    (h3 : e.history.length ≤ e.historyDepth)
    (h4 : ∀ o ∈ e.history, o.ref < e.nextRef) (h5 : e.state.ref < e.nextRef) :
    Inv (pushHistory e) := by
  have hT := pushHistory_atTail e
  have hlen1 := truncateFuture_length_le e
  have hmem1 : ∀ o ∈ truncateFuture e, o.ref < e.nextRef := by
    unfold truncateFuture
    split
    · intro o ho; exact h4 o (List.mem_of_mem_take ho)
    · exact h4
  have hmem2 : ∀ o ∈ pushedHistory e, o.ref < e.nextRef + 1 := by
    intro o ho
    rcases List.mem_append.1 ho with hmem | hmem
    · exact (hmem1 o hmem).trans (Nat.lt_succ_self _)
    · simp only [List.mem_singleton] at hmem
      subst hmem
      exact Nat.lt_succ_self _
  refine ⟨?_, ?_, ?_, ?_, ?_⟩
  · rw [hT.1]
    have : (0 : Int) ≤ ((pushHistory e).history.length : Int) := by positivity
    omega
  · rw [hT.1]; omega
  · rw [pushHistory_historyDepth]
    unfold pushHistory
    split
    · rename_i htrim
      simp only [List.length_tail, pushedHistory_length] at htrim ⊢
      omega
    · rename_i htrim
      simp only [pushedHistory_length] at htrim ⊢
      omega
  · unfold pushHistory
    split
    · intro o ho
      exact hmem2 o (List.mem_of_mem_tail ho)
    · exact hmem2
  · rw [pushHistory_state]
    unfold pushHistory
    split
    · exact h5.trans (Nat.lt_succ_self _)
    · exact h5.trans (Nat.lt_succ_self _)

theorem Inv.pushHistory {e : StateEngine V P} (h : Inv e) : Inv (pushHistory e) :=
  pushHistory_inv h.1 h.2.1 h.2.2.1 h.2.2.2.1 h.2.2.2.2

theorem undoE_of_nonpos {e : StateEngine V P} (h : e.historyIndex ≤ 0) :
    undoE e = e := by
  unfold undoE undo
  rw [if_neg (by omega)]

theorem undoE_of_pos {e : StateEngine V P} (h : 0 < e.historyIndex)
    (hlt : e.historyIndex < (e.history.length : Int)) :
    ∃ hs, e.history[(e.historyIndex - 1).toNat]? = some hs ∧
      undoE e = { e with historyIndex := e.historyIndex - 1,
                         state := ⟨e.nextRef, hs.val⟩,
                         nextRef := e.nextRef + 1 } := by
  have hb : (e.historyIndex - 1).toNat < e.history.length := by omega
  refine ⟨e.history[(e.historyIndex - 1).toNat], List.getElem?_eq_getElem hb, ?_⟩
  unfold undoE undo
  rw [if_pos h, List.getElem?_eq_getElem hb]

theorem redoE_of_ge {e : StateEngine V P} (h : (e.history.length : Int) - 1 ≤ e.historyIndex) :
    redoE e = e := by
  unfold redoE redo
  rw [if_neg (by omega)]

theorem redoE_of_lt {e : StateEngine V P} (h : e.historyIndex < (e.history.length : Int) - 1)
    (hge : -1 ≤ e.historyIndex) :
    ∃ hs, e.history[(e.historyIndex + 1).toNat]? = some hs ∧
      redoE e = { e with historyIndex := e.historyIndex + 1,
                         state := ⟨e.nextRef, hs.val⟩,
                         nextRef := e.nextRef + 1 } := by
  have hb : (e.historyIndex + 1).toNat < e.history.length := by omega
  refine ⟨e.history[(e.historyIndex + 1).toNat], List.getElem?_eq_getElem hb, ?_⟩
  unfold redoE redo
  rw [if_pos h, List.getElem?_eq_getElem hb]

theorem Inv.undoE {e : StateEngine V P} (h : Inv e) : Inv (undoE e) := by
  obtain ⟨h1, h2, h3, h4, h5⟩ := h
  by_cases hidx : 0 < e.historyIndex
  · obtain ⟨hs, -, heq⟩ := undoE_of_pos hidx h2
    rw [heq]
    unfold Inv
    dsimp only
    exact ⟨by omega, by omega, h3,
      fun o ho => (h4 o ho).trans (Nat.lt_succ_self _), Nat.lt_succ_self _⟩
  · rw [undoE_of_nonpos (by omega)]
    exact ⟨h1, h2, h3, h4, h5⟩

theorem Inv.redoE {e : StateEngine V P} (h : Inv e) : Inv (redoE e) := by
  obtain ⟨h1, h2, h3, h4, h5⟩ := h
  by_cases hidx : e.historyIndex < (e.history.length : Int) - 1
  · obtain ⟨hs, -, heq⟩ := redoE_of_lt hidx h1
    rw [heq]
    unfold Inv
    dsimp only
    exact ⟨by omega, by omega, h3,
      fun o ho => (h4 o ho).trans (Nat.lt_succ_self _), Nat.lt_succ_self _⟩
  · rw [redoE_of_ge (by omega)]
    exact ⟨h1, h2, h3, h4, h5⟩

theorem dispatch_fst (e : StateEngine V P) (a : Action P) :
    (dispatch e a).1 = dispatchCore e a := by
  unfold dispatch
  split <;> rfl

theorem inv_dispatchCore {e : StateEngine V P} (h : Inv e) (a : Action P) :
    Inv (dispatchCore e a) := by
  unfold StateEngine.dispatchCore
  split
  · split
    · exact Inv.pushHistory h
    · refine Inv.pushHistory ?_
      obtain ⟨h1, h2, h3, h4, h5⟩ := h
      exact ⟨h1, h2, h3,
        fun o ho => (h4 o ho).trans (Nat.lt_succ_self _), Nat.lt_succ_self _⟩
  · exact h

theorem atTail_dispatchCore {e : StateEngine V P} (h : AtTail e) (a : Action P) :
    AtTail (dispatchCore e a) := by
  unfold StateEngine.dispatchCore
  split
  · split
    · exact pushHistory_atTail _
    · exact pushHistory_atTail _
  · exact h

theorem new_inv (v0 : V) (depth : Nat) (rds : String → Option (Reducer V P))
    (obs : List ObserverSpec) : Inv (new v0 depth rds obs) := by
  unfold new
  exact Inv.pushHistory ⟨by norm_num, by norm_num, by simp, by simp, by norm_num⟩

theorem new_atTail (v0 : V) (depth : Nat) (rds : String → Option (Reducer V P))
    (obs : List ObserverSpec) : AtTail (new v0 depth rds obs) :=
  pushHistory_atTail _

theorem undoN_succ (n : Nat) (e : StateEngine V P) :
    undoN (n + 1) e = undoN n (undoE e) := rfl

theorem redoN_succ (n : Nat) (e : StateEngine V P) :
    redoN (n + 1) e = redoN n (redoE e) := rfl

theorem undoN_spec (n : Nat) (e : StateEngine V P) (hInv : Inv e) :
    (undoN n e).history = e.history ∧
    (undoN n e).observers = e.observers ∧
    Inv (undoN n e) ∧
    ((e.historyIndex ≤ 0 ∨ n = 0) → undoN n e = e) ∧
    (0 < e.historyIndex → 0 < n →
      (undoN n e).historyIndex = max (e.historyIndex - n) 0 ∧
      ∀ hs, e.history[(max (e.historyIndex - n) 0).toNat]? = some hs →
        (undoN n e).state.val = hs.val) := by
  induction n generalizing e with
  | zero =>
    exact ⟨rfl, rfl, hInv, fun _ => rfl, fun _ h0 => absurd h0 (by omega)⟩
  | succ n ih =>
    rw [undoN_succ]
    by_cases hidx : 0 < e.historyIndex
    · obtain ⟨hs0, hget0, heq⟩ := undoE_of_pos hidx hInv.2.1
      have hInv' : Inv (undoE e) := Inv.undoE hInv
      have hrec := ih (undoE e) hInv'
      have hist' : (undoE e).history = e.history := by rw [heq]
      have hidx' : (undoE e).historyIndex = e.historyIndex - 1 := by rw [heq]
      have hst' : (undoE e).state.val = hs0.val := by rw [heq]
      refine ⟨by rw [hrec.1, hist'], by rw [hrec.2.1, heq], hrec.2.2.1, ?_, ?_⟩
      · rintro (hle | hn0)
        · exact absurd hle (by omega)
        · exact absurd hn0 (by omega)
      · intro _ _
        by_cases hidx1 : 0 < e.historyIndex - 1
        · by_cases hn : 0 < n
          · have hmain := hrec.2.2.2.2 (by rw [hidx']; omega) hn
            constructor
            · rw [hmain.1, hidx']
              push_cast
              omega
            · intro hs hget
              apply hmain.2 hs
              rw [hist', hidx']
              push_cast at hget ⊢
              have hmax : max (e.historyIndex - 1 - (n : Int)) 0 =
                  max (e.historyIndex - ((n : Int) + 1)) 0 := by omega
              rw [hmax]
              exact hget
          · have hn0 : n = 0 := by omega
            subst hn0
            refine ⟨?_, ?_⟩
            · show (undoE e).historyIndex = _
              rw [hidx']
              push_cast
              omega
            intro hs hget
            show (undoE e).state.val = hs.val
            rw [hst']
            have hcell : (max (e.historyIndex - ((0 : Nat) + 1 : Nat)) 0).toNat =
                (e.historyIndex - 1).toNat := by push_cast; omega
            rw [hcell, hget0] at hget
            cases hget
            rfl
        · have hid : undoN n (undoE e) = undoE e :=
            hrec.2.2.2.1 (Or.inl (by rw [hidx']; omega))
          rw [hid]
          constructor
          · rw [hidx']
            push_cast
            omega
          · intro hs hget
            rw [hst']
            have hcell : (max (e.historyIndex - ((n : Int) + 1)) 0).toNat =
                (e.historyIndex - 1).toNat := by omega
            push_cast at hget
            rw [hcell, hget0] at hget
            cases hget
            rfl
    · have heqE : undoE e = e := undoE_of_nonpos (by omega)
      rw [heqE]
      have hrec := ih e hInv
      refine ⟨hrec.1, hrec.2.1, hrec.2.2.1, ?_, ?_⟩
      · intro _
        exact hrec.2.2.2.1 (Or.inl (by omega))
      · intro h0 _
        exact absurd h0 hidx

theorem redoN_spec (n : Nat) (e : StateEngine V P) (hInv : Inv e) :
    (redoN n e).history = e.history ∧
    (redoN n e).observers = e.observers ∧
    Inv (redoN n e) ∧
    (((e.history.length : Int) - 1 ≤ e.historyIndex ∨ n = 0) → redoN n e = e) ∧
    (e.historyIndex < (e.history.length : Int) - 1 → 0 < n →
      (redoN n e).historyIndex =
        min (e.historyIndex + n) ((e.history.length : Int) - 1) ∧
      ∀ hs, e.history[(min (e.historyIndex + n) ((e.history.length : Int) - 1)).toNat]? =
          some hs → (redoN n e).state.val = hs.val) := by
  induction n generalizing e with
  | zero =>
    exact ⟨rfl, rfl, hInv, fun _ => rfl, fun _ h0 => absurd h0 (by omega)⟩
  | succ n ih =>
    rw [redoN_succ]
    by_cases hidx : e.historyIndex < (e.history.length : Int) - 1
    · obtain ⟨hs0, hget0, heq⟩ := redoE_of_lt hidx hInv.1
      have hInv' : Inv (redoE e) := Inv.redoE hInv
      have hrec := ih (redoE e) hInv'
      have hist' : (redoE e).history = e.history := by rw [heq]
      have hidx' : (redoE e).historyIndex = e.historyIndex + 1 := by rw [heq]
      have hst' : (redoE e).state.val = hs0.val := by rw [heq]
      refine ⟨by rw [hrec.1, hist'], by rw [hrec.2.1, heq], hrec.2.2.1, ?_, ?_⟩
      · rintro (hge | hn0)
        · exact absurd hge (by omega)
        · exact absurd hn0 (by omega)
      · intro _ _
        by_cases hidx1 : e.historyIndex + 1 < (e.history.length : Int) - 1
        · by_cases hn : 0 < n
          · have hmain := hrec.2.2.2.2 (by rw [hidx', hist']; omega) hn
            constructor
            · rw [hmain.1, hidx', hist']
              push_cast
              omega
            · intro hs hget
              apply hmain.2 hs
              rw [hist', hidx']
              push_cast at hget ⊢
              have hmin : min (e.historyIndex + 1 + (n : Int)) ((e.history.length : Int) - 1) =
                  min (e.historyIndex + ((n : Int) + 1)) ((e.history.length : Int) - 1) := by
                omega
              rw [hmin]
              exact hget
          · have hn0 : n = 0 := by omega
            subst hn0
            refine ⟨?_, ?_⟩
            · show (redoE e).historyIndex = _
              rw [hidx']
              push_cast
              omega
            intro hs hget
            show (redoE e).state.val = hs.val
            rw [hst']
            have hcell : (min (e.historyIndex + ((0 : Nat) + 1 : Nat))
                ((e.history.length : Int) - 1)).toNat = (e.historyIndex + 1).toNat := by
              push_cast; omega
            rw [hcell, hget0] at hget
            cases hget
            rfl
        · have hid : redoN n (redoE e) = redoE e :=
            hrec.2.2.2.1 (Or.inl (by rw [hidx', hist']; omega))
          rw [hid]
          constructor
          · rw [hidx']
            push_cast
            omega
          · intro hs hget
            rw [hst']
            have hcell : (min (e.historyIndex + ((n : Int) + 1))
                ((e.history.length : Int) - 1)).toNat = (e.historyIndex + 1).toNat := by
              omega
            push_cast at hget
            rw [hcell, hget0] at hget
            cases hget
            rfl
    · have heqE : redoE e = e := redoE_of_ge (by omega)
      rw [heqE]
      have hrec := ih e hInv
      refine ⟨hrec.1, hrec.2.1, hrec.2.2.1, ?_, ?_⟩
      · intro _
        exact hrec.2.2.2.1 (Or.inl (by omega))
      · intro h0 _
        exact absurd h0 hidx

theorem dispatchList_inv_atTail (e0 : StateEngine V P) (acts : List (Action P))
    (h : Inv e0 ∧ AtTail e0) :
    Inv (dispatchList e0 acts) ∧ AtTail (dispatchList e0 acts) := by
  induction acts generalizing e0 with
  | nil => exact h
  | cons a rest ih =>
    have hstep : Inv (dispatch e0 a).1 ∧ AtTail (dispatch e0 a).1 := by
      rw [dispatch_fst]
      exact ⟨inv_dispatchCore h.1 a, atTail_dispatchCore h.2 a⟩
    exact ih _ hstep

theorem roundTrip {e : StateEngine V P} (hInv : Inv e) (hT : AtTail e) (n : Nat) :
    (redoN n (undoN n e)).state.val = e.state.val := by
  rcases Nat.eq_zero_or_pos n with hn0 | hn
  · subst hn0
    rfl
  by_cases hidx : e.historyIndex ≤ 0
  · have h1 : undoN n e = e := (undoN_spec n e hInv).2.2.2.1 (Or.inl hidx)
    rw [h1]
    have h2 : redoN n e = e := (redoN_spec n e hInv).2.2.2.1 (Or.inl (by
      have := hT.1
      omega))
    rw [h2]
  · push_neg at hidx
    have hi := hT.1
    have hU := undoN_spec n e hInv
    have hmainU := hU.2.2.2.2 hidx hn
    have hidx1 : (undoN n e).historyIndex < (((undoN n e).history.length : Int)) - 1 := by
      rw [hU.1, hmainU.1]
      omega
    have hR := redoN_spec n (undoN n e) hU.2.2.1
    have hmainR := hR.2.2.2.2 hidx1 hn
    have hlt : e.history.length - 1 < e.history.length := by omega
    obtain ⟨hs, hgets⟩ : ∃ hs, e.history[e.history.length - 1]? = some hs :=
      ⟨_, List.getElem?_eq_getElem hlt⟩
    have hcellget : (undoN n e).history[(min ((undoN n e).historyIndex + (n : Int))
        (((undoN n e).history.length : Int) - 1)).toNat]? = some hs := by
      rw [hU.1, hmainU.1]
      have hcell : (min (max (e.historyIndex - (n : Int)) 0 + (n : Int))
          ((e.history.length : Int) - 1)).toNat = e.history.length - 1 := by omega
      rw [hcell]
      exact hgets
    have hfin := hmainR.2 hs hcellget
    rw [hfin]
    exact (hT.2 hs hgets).symm

theorem dispatchCore_historyDepth (e : StateEngine V P) (a : Action P) :
    (dispatchCore e a).historyDepth = e.historyDepth := by
  unfold dispatchCore
  split
  · split
    · exact pushHistory_historyDepth e
    · exact pushHistory_historyDepth _
  · rfl

theorem dispatchCore_reducers (e : StateEngine V P) (a : Action P) :
    (dispatchCore e a).reducers = e.reducers := by
  unfold dispatchCore
  split
  · split
    · exact pushHistory_reducers e
    · exact pushHistory_reducers _
  · rfl

theorem dispatchCore_observers (e : StateEngine V P) (a : Action P) :
    (dispatchCore e a).observers = e.observers := by
  unfold dispatchCore
  split
  · split
    · exact pushHistory_observers e
    · exact pushHistory_observers _
  · rfl

theorem undoE_historyDepth (e : StateEngine V P) :
    (undoE e).historyDepth = e.historyDepth := by
  unfold undoE undo
  split
  · split <;> rfl
  · rfl

theorem redoE_historyDepth (e : StateEngine V P) :
    (redoE e).historyDepth = e.historyDepth := by
  unfold redoE redo
  split
  · split <;> rfl
  · rfl

theorem dispatchCore_none {e : StateEngine V P} {a : Action P}
    (hr : e.reducers a.type = none) : dispatchCore e a = e := by
  unfold dispatchCore
  split
  · rename_i r2 hr2
    rw [hr] at hr2
    cases hr2
  · rfl

theorem dispatchCore_same {e : StateEngine V P} {a : Action P} {r : Reducer V P}
    (hr : e.reducers a.type = some r)
    (hres : r e.state.val a.payload = .same) :
    dispatchCore e a = pushHistory e := by
  unfold dispatchCore
  split
  · rename_i r2 hr2
    rw [hr] at hr2
    injection hr2 with h
    subst h
    split
    · rfl
    · rename_i v hmk
      rw [hres] at hmk
      cases hmk
  · rename_i hnone
    rw [hr] at hnone
    cases hnone

theorem dispatchCore_mk {e : StateEngine V P} {a : Action P} {r : Reducer V P}
    {v : V} (hr : e.reducers a.type = some r)
    (hres : r e.state.val a.payload = .mk v) :
    dispatchCore e a =
      pushHistory { e with state := ⟨e.nextRef, v⟩, nextRef := e.nextRef + 1 } := by
  unfold dispatchCore
  split
  · rename_i r2 hr2
    rw [hr] at hr2
    injection hr2 with h
    subst h
    split
    · rename_i hsame
      rw [hres] at hsame
      cases hsame
    · rename_i v2 hmk
      rw [hres] at hmk
      injection hmk with h2
      subst h2
      rfl
  · rename_i hnone
    rw [hr] at hnone
    cases hnone

theorem dispatch_state_mk {e : StateEngine V P} {a : Action P} {r : Reducer V P}
    {v : V} (hr : e.reducers a.type = some r)
    (hres : r e.state.val a.payload = .mk v) :
    (dispatch e a).1.state = ⟨e.nextRef, v⟩ := by
  rw [dispatch_fst, dispatchCore_mk hr hres, pushHistory_state]

theorem new_historyDepth (v0 : V) (depth : Nat)
    (rds : String → Option (Reducer V P)) (obs : List ObserverSpec) :
    (new v0 depth rds obs).historyDepth = depth := by
  unfold new
  rw [pushHistory_historyDepth]

theorem reachable_inv {e0 e : StateEngine V P} (hr : Reachable e0 e) (h0 : Inv e0) :
    Inv e ∧ e.historyDepth = e0.historyDepth := by
  induction hr with
  | refl => exact ⟨h0, rfl⟩
  | tail _ hstep ih =>
    cases hstep with
    | dispatch a =>
      exact ⟨by rw [dispatch_fst]; exact inv_dispatchCore ih.1 a,
        by rw [dispatch_fst, dispatchCore_historyDepth]; exact ih.2⟩
    | undo => exact ⟨Inv.undoE ih.1, by rw [undoE_historyDepth]; exact ih.2⟩
    | redo => exact ⟨Inv.redoE ih.1, by rw [redoE_historyDepth]; exact ih.2⟩

theorem notifyObservers_spec (obs : List ObserverSpec) (newS prevS : Obj V)
    (a : Action P) :
    (notifyObservers obs newS prevS a).1 =
      obs.map (fun o => ⟨o.id, newS, prevS, a⟩) ∧
    (notifyObservers obs newS prevS a).2 =
      (obs.filter (fun o => o.throws)).map (fun o => o.id) := by
  have key : ∀ (l : List ObserverSpec) (acc : List (Notif V P) × List Nat),
      l.foldl
        (fun acc o =>
          let delivered := acc.1 ++ [⟨o.id, newS, prevS, a⟩]
          if o.throws then (delivered, acc.2 ++ [o.id]) else (delivered, acc.2))
        acc =
      (acc.1 ++ l.map (fun o => ⟨o.id, newS, prevS, a⟩),
       acc.2 ++ (l.filter (fun o => o.throws)).map (fun o => o.id)) := by
    intro l
    induction l with
    | nil => intro acc; simp
    | cons o rest ih =>
      intro acc
      rw [List.foldl_cons, ih]
      by_cases ht : o.throws
      · simp [ht]
      · simp [ht]
  unfold notifyObservers
  rw [key]
  simp

end StateEngine

/-! ## Settling the claims -/

open StateEngine UseAI

/-- C1, counterexample to the claim as stated: dispatching `noop` — whose
registered reducer returns the identical state reference — to a freshly
constructed engine notifies no observer, as claimed, but `getHistoryLength()`
is NOT unchanged: it grows from 1 to 2, because `dispatch` calls
`pushHistory()` unconditionally whenever a reducer is registered. -/
theorem claim_C1_identical_reference_counterexample :
    (dispatch engineNoop ⟨"noop", none⟩).2.1 = [] ∧
    engineNoop.getHistoryLength = 1 ∧
    ¬ (dispatch engineNoop ⟨"noop", none⟩).1.getHistoryLength =
        engineNoop.getHistoryLength := by
  refine ⟨by decide, by decide, by decide⟩

/-- C1, amended: when the registered reducer returns the identical state
reference, no subscribed observer is notified, but a history entry IS still
created — the dispatch leaves the engine exactly as a bare `pushHistory()`
call would, and from a tail cursor position below the depth bound the
history length increases by 1. -/
theorem claim_C1_identical_reference_dispatch {V P : Type}
    (e : StateEngine V P) (a : Action P) (r : Reducer V P)
    (hr : e.reducers a.type = some r)
    (hsame : r e.state.val a.payload = .same) :
    (dispatch e a).2.1 = [] ∧
    (dispatch e a).1 = pushHistory e ∧
    (e.historyIndex = (e.history.length : Int) - 1 →
      e.history.length < e.historyDepth →
      (dispatch e a).1.getHistoryLength = e.getHistoryLength + 1) := by
  have hcore : dispatchCore e a = pushHistory e := dispatchCore_same hr hsame
  have href : (dispatchCore e a).state.ref = e.state.ref := by
    rw [hcore, pushHistory_state]
  have hd : dispatch e a = (dispatchCore e a, ([], [])) := by
    unfold dispatch
    rw [if_pos href]
  refine ⟨by rw [hd], by rw [hd]; exact hcore, ?_⟩
  intro htail hlt
  rw [hd]
  show (dispatchCore e a).getHistoryLength = _
  rw [hcore]
  have htf : truncateFuture e = e.history := by
    unfold truncateFuture
    rw [if_neg (by omega)]
  have hpl : (pushedHistory e).length = e.history.length + 1 := by
    rw [pushedHistory_length, htf]
  unfold getHistoryLength pushHistory
  rw [if_neg (by rw [hpl]; omega)]
  exact hpl

/-- Witness for C1's amended theorem at the concrete `noop` engine. -/
theorem claim_C1_identical_reference_dispatch_witness :
    (dispatch engineNoop ⟨"noop", none⟩).2.1 = [] ∧
    (dispatch engineNoop ⟨"noop", none⟩).1 = pushHistory engineNoop ∧
    (engineNoop.historyIndex = (engineNoop.history.length : Int) - 1 →
      engineNoop.history.length < engineNoop.historyDepth →
      (dispatch engineNoop ⟨"noop", none⟩).1.getHistoryLength =
        engineNoop.getHistoryLength + 1) :=
  claim_C1_identical_reference_dispatch engineNoop ⟨"noop", none⟩
    (fun _ _ => .same) rfl rfl

/-- C4: along every sequence of engine operations the history length never
exceeds the configured depth, and in the concrete scenario — depth 3, five
state-changing `set` dispatches — `getHistoryLength()` is 3 and `undo()`
succeeds exactly twice from the final state. -/
theorem claim_C4_history_depth_eviction {V P : Type} (v0 : V) (depth : Nat)
    (rds : String → Option (Reducer V P)) (obs : List ObserverSpec)
    (e : StateEngine V P) (hreach : Reachable (new v0 depth rds obs) e) :
    e.getHistoryLength ≤ depth ∧
    engineDepth3After5.getHistoryLength = 3 ∧
    (undo engineDepth3After5).2.1 = true ∧
    (undo (undoE engineDepth3After5)).2.1 = true ∧
    (undo (undoE (undoE engineDepth3After5))).2.1 = false := by
  have h := reachable_inv hreach (new_inv v0 depth rds obs)
  refine ⟨?_, by decide, by decide, by decide, by decide⟩
  have hlen := h.1.2.2.1
  rw [h.2, new_historyDepth] at hlen
  exact hlen

/-- Witness for C4 at the depth-3 engine after five `set` dispatches. -/
theorem claim_C4_history_depth_eviction_witness :
    engineDepth3After5.getHistoryLength ≤ 3 ∧
    engineDepth3After5.getHistoryLength = 3 ∧
    (undo engineDepth3After5).2.1 = true ∧
    (undo (undoE engineDepth3After5)).2.1 = true ∧
    (undo (undoE (undoE engineDepth3After5))).2.1 = false :=
  claim_C4_history_depth_eviction 0 3 setReducers [] engineDepth3After5
    (.tail (.tail (.tail (.tail (.tail .refl
      (.dispatch _ (setAct 1))) (.dispatch _ (setAct 2))) (.dispatch _ (setAct 3)))
      (.dispatch _ (setAct 4))) (.dispatch _ (setAct 5)))

/-- C6: after any sequence of dispatches on a fresh engine, undoing N times
and then redoing N times (N = the number of dispatches) returns `getState()`
to a value equal to the final dispatched state. -/
theorem claim_C6_undo_redo_round_trip {V P : Type} (v0 : V) (depth : Nat)
    (rds : String → Option (Reducer V P)) (obs : List ObserverSpec)
    (acts : List (Action P)) :
    (redoN acts.length (undoN acts.length
        (dispatchList (new v0 depth rds obs) acts))).getState.val =
      (dispatchList (new v0 depth rds obs) acts).getState.val := by
  have h := dispatchList_inv_atTail (new v0 depth rds obs) acts
    ⟨new_inv v0 depth rds obs, new_atTail v0 depth rds obs⟩
  exact roundTrip h.1 h.2 acts.length

/-- C5: pushing a new state while the cursor is not at the tail first
truncates every entry after the cursor — the pushed history is exactly
`history.slice(0, cursor + 1)` plus the fresh snapshot, and the new cursor is
again at the tail so `canRedo()` is false — and in the concrete scenario
(three `set` dispatches, two `undo()`s, then `set 99`) `redo()` returns
false thereafter. -/
theorem claim_C5_truncate_redo_branch {V P : Type} (e : StateEngine V P)
    (hInv : Inv e) (hcur : e.historyIndex < (e.history.length : Int) - 1) :
    pushHistory e =
      { e with history := e.history.take (e.historyIndex + 1).toNat ++
                          [⟨e.nextRef, e.state.val⟩],
               historyIndex := e.historyIndex + 1,
               nextRef := e.nextRef + 1 } ∧
    canRedo (pushHistory e) = false ∧
    engineBranch.state.val = 99 ∧
    canRedo engineBranch = false ∧
    (redo engineBranch).2.1 = false ∧
    (redo (redoE engineBranch)).2.1 = false := by
  obtain ⟨h1, h2, h3, -, -⟩ := hInv
  have htf : truncateFuture e = e.history.take (e.historyIndex + 1).toNat := by
    unfold truncateFuture
    rw [if_pos hcur]
  have hkle : (e.historyIndex + 1).toNat ≤ e.history.length := by omega
  have hlen : (pushedHistory e).length = (e.historyIndex + 1).toNat + 1 := by
    rw [pushedHistory_length, htf, List.length_take]
    omega
  have hnotrim : ¬ (pushedHistory e).length > e.historyDepth := by
    rw [hlen]
    omega
  have hidxeq : ((pushedHistory e).length : Int) - 1 = e.historyIndex + 1 := by
    rw [hlen]
    push_cast
    omega
  refine ⟨?_, ?_, by decide, by decide, by decide, by decide⟩
  · unfold pushHistory
    rw [if_neg hnotrim, hidxeq]
    unfold pushedHistory
    rw [htf]
  · have ht := (pushHistory_atTail e).1
    unfold canRedo
    rw [ht]
    simp

/-- Witness for C5 at `engineMid`, whose cursor sits two entries before the
tail. -/
theorem claim_C5_truncate_redo_branch_witness :
    pushHistory engineMid =
      { engineMid with
          history := engineMid.history.take (engineMid.historyIndex + 1).toNat ++
                     [⟨engineMid.nextRef, engineMid.state.val⟩],
          historyIndex := engineMid.historyIndex + 1,
          nextRef := engineMid.nextRef + 1 } ∧
    canRedo (pushHistory engineMid) = false ∧
    engineBranch.state.val = 99 ∧
    canRedo engineBranch = false ∧
    (redo engineBranch).2.1 = false ∧
    (redo (redoE engineBranch)).2.1 = false :=
  claim_C5_truncate_redo_branch engineMid (by unfold StateEngine.Inv; decide) (by decide)

/-- C10: `undo()` and `redo()` leave the history entries, the history length,
the reducer registry, the observer set, the depth bound and the initial state
untouched; when they succeed they only move the cursor by one and replace the
current state by a value copy of the snapshot at the new cursor, under a
fresh reference distinct from every reference stored in the history. -/
theorem claim_C10_undo_redo_frame {V P : Type} (e : StateEngine V P)
    (hInv : Inv e) :
    ((undoE e).history = e.history ∧
     (undoE e).getHistoryLength = e.getHistoryLength ∧
     (undoE e).observers = e.observers ∧
     (undoE e).reducers = e.reducers ∧
     (undoE e).historyDepth = e.historyDepth ∧
     (undoE e).initialState = e.initialState) ∧
    ((undo e).2.1 = true →
      (undoE e).historyIndex = e.historyIndex - 1 ∧
      ∃ hs, e.history[(e.historyIndex - 1).toNat]? = some hs ∧
        (undoE e).state.val = hs.val ∧
        ∀ o ∈ e.history, (undoE e).state.ref ≠ o.ref) ∧
    ((redoE e).history = e.history ∧
     (redoE e).getHistoryLength = e.getHistoryLength ∧
     (redoE e).observers = e.observers ∧
     (redoE e).reducers = e.reducers ∧
     (redoE e).historyDepth = e.historyDepth ∧
     (redoE e).initialState = e.initialState) ∧
    ((redo e).2.1 = true →
      (redoE e).historyIndex = e.historyIndex + 1 ∧
      ∃ hs, e.history[(e.historyIndex + 1).toNat]? = some hs ∧
        (redoE e).state.val = hs.val ∧
        ∀ o ∈ e.history, (redoE e).state.ref ≠ o.ref) := by
  obtain ⟨h1, h2, h3, h4, h5⟩ := hInv
  refine ⟨?_, ?_, ?_, ?_⟩
  · by_cases hidx : 0 < e.historyIndex
    · obtain ⟨hs, hget, heq⟩ := undoE_of_pos hidx h2
      rw [heq]
      exact ⟨rfl, rfl, rfl, rfl, rfl, rfl⟩
    · rw [undoE_of_nonpos (by omega)]
      exact ⟨rfl, rfl, rfl, rfl, rfl, rfl⟩
  · intro hfl
    by_cases hidx : 0 < e.historyIndex
    · obtain ⟨hs, hget, heq⟩ := undoE_of_pos hidx h2
      rw [heq]
      exact ⟨rfl, hs, hget, rfl, fun o ho => ((h4 o ho).ne')⟩
    · exfalso
      have : undo e = (e, false, ([], [])) := by
        unfold undo
        rw [if_neg (by omega)]
      rw [this] at hfl
      cases hfl
  · by_cases hidx : e.historyIndex < (e.history.length : Int) - 1
    · obtain ⟨hs, hget, heq⟩ := redoE_of_lt hidx h1
      rw [heq]
      exact ⟨rfl, rfl, rfl, rfl, rfl, rfl⟩
    · rw [redoE_of_ge (by omega)]
      exact ⟨rfl, rfl, rfl, rfl, rfl, rfl⟩
  · intro hfl
    by_cases hidx : e.historyIndex < (e.history.length : Int) - 1
    · obtain ⟨hs, hget, heq⟩ := redoE_of_lt hidx h1
      rw [heq]
      exact ⟨rfl, hs, hget, rfl, fun o ho => ((h4 o ho).ne')⟩
    · exfalso
      have : redo e = (e, false, ([], [])) := by
        unfold redo
        rw [if_neg (by omega)]
      rw [this] at hfl
      cases hfl

/-- Witness for C10 at `engineMid`, where both `undo()` and `redo()`
succeed. -/
theorem claim_C10_undo_redo_frame_witness :
    ((undoE engineMid).history = engineMid.history ∧
     (undoE engineMid).getHistoryLength = engineMid.getHistoryLength ∧
     (undoE engineMid).observers = engineMid.observers ∧
     (undoE engineMid).reducers = engineMid.reducers ∧
     (undoE engineMid).historyDepth = engineMid.historyDepth ∧
     (undoE engineMid).initialState = engineMid.initialState) ∧
    ((undo engineMid).2.1 = true →
      (undoE engineMid).historyIndex = engineMid.historyIndex - 1 ∧
      ∃ hs, engineMid.history[(engineMid.historyIndex - 1).toNat]? = some hs ∧
        (undoE engineMid).state.val = hs.val ∧
        ∀ o ∈ engineMid.history, (undoE engineMid).state.ref ≠ o.ref) ∧
    ((redoE engineMid).history = engineMid.history ∧
     (redoE engineMid).getHistoryLength = engineMid.getHistoryLength ∧
     (redoE engineMid).observers = engineMid.observers ∧
     (redoE engineMid).reducers = engineMid.reducers ∧
     (redoE engineMid).historyDepth = engineMid.historyDepth ∧
     (redoE engineMid).initialState = engineMid.initialState) ∧
    ((redo engineMid).2.1 = true →
      (redoE engineMid).historyIndex = engineMid.historyIndex + 1 ∧
      ∃ hs, engineMid.history[(engineMid.historyIndex + 1).toNat]? = some hs ∧
        (redoE engineMid).state.val = hs.val ∧
        ∀ o ∈ engineMid.history, (redoE engineMid).state.ref ≠ o.ref) :=
  claim_C10_undo_redo_frame engineMid (by unfold StateEngine.Inv; decide)

/-- C9: when a state-changing dispatch notifies the observers, every
subscribed observer receives the same `(newState, prevState, action)`
notification even if one of them throws — the throwing observer's exception
is caught and logged, a later-registered observer is still called, and the
dispatch itself completes (the state is updated to the reducer's result). -/
theorem claim_C9_observer_isolation {V P : Type} (e : StateEngine V P)
    (a : Action P) (r : Reducer V P) (v : V)
    (hInv : Inv e)
    (hr : e.reducers a.type = some r)
    (hres : r e.state.val a.payload = .mk v)
    (l1 l2 : List ObserverSpec) (oT o2 : ObserverSpec)
    (hobs : e.observers = l1 ++ oT :: l2)
    (hthrows : oT.throws = true) (ho2 : o2 ∈ l2) :
    (dispatch e a).2.1 =
      e.observers.map (fun o => ⟨o.id, (dispatch e a).1.state, e.state, a⟩) ∧
    (⟨o2.id, (dispatch e a).1.state, e.state, a⟩ : Notif V P) ∈ (dispatch e a).2.1 ∧
    oT.id ∈ (dispatch e a).2.2 ∧
    (dispatch e a).1.state.val = v := by
  have hcore := dispatchCore_mk hr hres
  obtain ⟨-, -, -, -, h5⟩ := hInv
  have hrefne : ¬ ((dispatchCore e a).state.ref = e.state.ref) := by
    rw [hcore, pushHistory_state]
    exact h5.ne'
  have hd : dispatch e a =
      (dispatchCore e a,
       notifyObservers (dispatchCore e a).observers (dispatchCore e a).state
         e.state a) := by
    unfold dispatch
    rw [if_neg hrefne]
  have hobsf := dispatchCore_observers e a
  have hspec := notifyObservers_spec (P := P) (dispatchCore e a).observers
    (dispatchCore e a).state e.state a
  refine ⟨?_, ?_, ?_, ?_⟩
  · rw [hd]
    rw [hspec.1, hobsf]
  · rw [hd]
    rw [hspec.1, hobsf, hobs]
    exact List.mem_map_of_mem _ (by simp [ho2])
  · rw [hd]
    rw [hspec.2, hobsf, hobs]
    apply List.mem_map_of_mem
    exact List.mem_filter.2 ⟨by simp, hthrows⟩
  · rw [dispatch_state_mk hr hres]

/-- Witness for C9: on `engineObs` the first subscribed observer throws and
the later-registered second observer is still notified. -/
theorem claim_C9_observer_isolation_witness :
    (dispatch engineObs (setAct 7)).2.1 =
      engineObs.observers.map
        (fun o => ⟨o.id, (dispatch engineObs (setAct 7)).1.state,
                   engineObs.state, setAct 7⟩) ∧
    (⟨(1 : Nat), (dispatch engineObs (setAct 7)).1.state, engineObs.state,
        setAct 7⟩ : Notif Int Int) ∈ (dispatch engineObs (setAct 7)).2.1 ∧
    (0 : Nat) ∈ (dispatch engineObs (setAct 7)).2.2 ∧
    (dispatch engineObs (setAct 7)).1.state.val = 7 :=
  claim_C9_observer_isolation engineObs (setAct 7) (fun _ p => .mk (p.getD 0)) 7
    (by unfold StateEngine.Inv; decide) rfl rfl
    [] [⟨1, false⟩] ⟨0, true⟩ ⟨1, false⟩ rfl rfl (by decide)

/-- C2: every issued request captures the then-current epoch
(`++activeRequestId`); once a second request B has been issued, request A's
completion — successful or failed — is stale and leaves the hook state
(suggestion, error, everything) untouched, and the final visible suggestion
is exactly what B's own completion produces. -/
theorem claim_C2_stale_epoch_discard (s : AIState) (nowA nowB : Nat)
    (mA mB : Bool) (idA idB : Nat) (sA sB : AIState)
    (hA : startRequest s nowA mA = (sA, some idA))
    (hB : startRequest sA nowB mB = (sB, some idB)) :
    idA = sA.activeRequestId ∧
    idB = sB.activeRequestId ∧
    idA ≠ idB ∧
    (∀ t p, completeSuccess sB idA t p = sB) ∧
    (∀ m, completeFailure sB idA m = sB) ∧
    (∀ tA pA tB pB,
      completeSuccess (completeSuccess sB idA tA pA) idB tB pB =
        completeSuccess sB idB tB pB) ∧
    (∀ tB pB, tB ≠ "" →
      (completeSuccess sB idB tB pB).suggestion = some ⟨cleanText tB, pB⟩) ∧
    (∀ pB, (completeSuccess sB idB "" pB).suggestion = none) := by
  unfold startRequest at hA hB
  split at hA
  · exact absurd (congrArg Prod.snd hA) (by simp)
  · injection hA with hA1 hA2
    injection hA2 with hA2
    split at hB
    · exact absurd (congrArg Prod.snd hB) (by simp)
    · injection hB with hB1 hB2
      injection hB2 with hB2
      have hsA : sA.activeRequestId = s.activeRequestId + 1 := by rw [← hA1]
      have hsB : sB.activeRequestId = sA.activeRequestId + 1 := by rw [← hB1]
      have hidA : idA = s.activeRequestId + 1 := hA2.symm
      have hidB : idB = sA.activeRequestId + 1 := hB2.symm
      have hstale : idA ≠ sB.activeRequestId := by omega
      have hcurB : ¬ idB ≠ sB.activeRequestId := by omega
      have hstaleS : ∀ t p, completeSuccess sB idA t p = sB := by
        intro t p
        unfold completeSuccess
        rw [if_pos hstale]
      refine ⟨by omega, by omega, by omega, hstaleS, ?_, ?_, ?_, ?_⟩
      · intro m
        unfold completeFailure
        rw [if_pos hstale]
      · intro tA pA tB pB
        rw [hstaleS tA pA]
      · intro tB pB htB
        unfold completeSuccess
        rw [if_neg hcurB, if_pos htB]
      · intro pB
        unfold completeSuccess
        rw [if_neg hcurB, if_neg (by simp)]

/-- Witness for C2: request A at t=2000 (epoch 1), request B at t=5000
(epoch 2), both automatic. -/
theorem claim_C2_stale_epoch_discard_witness :
    (1 : Nat) = aiStateA.activeRequestId ∧
    (2 : Nat) = aiStateB.activeRequestId ∧
    (1 : Nat) ≠ 2 ∧
    (∀ t p, completeSuccess aiStateB 1 t p = aiStateB) ∧
    (∀ m, completeFailure aiStateB 1 m = aiStateB) ∧
    (∀ tA pA tB pB,
      completeSuccess (completeSuccess aiStateB 1 tA pA) 2 tB pB =
        completeSuccess aiStateB 2 tB pB) ∧
    (∀ tB pB, tB ≠ "" →
      (completeSuccess aiStateB 2 tB pB).suggestion = some ⟨cleanText tB, pB⟩) ∧
    (∀ pB, (completeSuccess aiStateB 2 "" pB).suggestion = none) :=
  claim_C2_stale_epoch_discard initialAIState 2000 5000 false false 1 2
    aiStateA aiStateB (by decide) (by decide)

/-- C3: the spec (and the code's own comment, "Even with manual, prevent
spamming: min 1s between any request") say a manual trigger arriving within
1000ms of the previous actual call is dropped; the code's guard
`now - lastRequestTime.current < 1000 && !isManual` exempts manual triggers,
so a manual trigger 500ms after the previous call DOES issue a network call
(and an automatic one is dropped). -/
theorem claim_C3_manual_spacing_not_enforced :
    1500 - (1000 : Nat) < 1000 ∧
    (startRequest { initialAIState with lastRequestTime := 1000 } 1500 true).2 =
      some 1 ∧
    (startRequest { initialAIState with lastRequestTime := 1000 } 1500 false).2 =
      none := by
  refine ⟨by decide, by decide, by decide⟩

/-- C8, counterexample to the claim as stated: a failure whose message
contains "quota" but not "429" is classified by the code as kind `quota`
with the 30000ms cooldown — not as kind `network` with the default 5000ms
expiry, as the claim's "any other failure" clause requires. -/
theorem claim_C8_error_classification_counterexample :
    strIncludes "You have exceeded your quota." "429" = false ∧
    (completeFailure aiStateA 1 "You have exceeded your quota.").error =
      some ⟨"Rate limit exceeded (Free Tier). Pausing AI...", .quota,
            some 30000⟩ := by
  refine ⟨by decide, by decide⟩

/-- C8, amended: a non-stale failure whose message contains "429" or "quota"
produces an ErrorState of kind quota with a 30000ms expiry; a failure whose
message contains neither produces kind network, whose clearing timer uses the
default 5000ms; the suggestion is cleared in both cases; the error-clearing
timer resets the error to `none`; while an ErrorState is active, automatic
(non-manual) triggers are gated off while manual triggers (with an API key
and sufficient context) still pass the gate. -/
theorem claim_C8_failure_classification (s : AIState) (rid : Nat)
    (msg : String) (hcur : rid = s.activeRequestId) :
    (strIncludes msg "429" = true ∨ strIncludes msg "quota" = true →
      completeFailure s rid msg =
        { s with error := some ⟨"Rate limit exceeded (Free Tier). Pausing AI...",
                                .quota, some 30000⟩,
                 suggestion := none, isThinking := false } ∧
      errorClearDelay ⟨"Rate limit exceeded (Free Tier). Pausing AI...",
                       .quota, some 30000⟩ = 30000) ∧
    (strIncludes msg "429" = false → strIncludes msg "quota" = false →
      completeFailure s rid msg =
        { s with error := some ⟨"AI connection failed", .network, none⟩,
                 suggestion := none, isThinking := false } ∧
      errorClearDelay ⟨"AI connection failed", .network, none⟩ = 5000) ∧
    (completeFailure s rid msg).suggestion = none ∧
    (∀ s2 : AIState, s2.error.isSome = true →
      ∀ (apiKey : Bool) (len : Nat), requestGate apiKey len s2 false = false) ∧
    (∀ s2 : AIState, ∀ len : Nat, 5 ≤ len →
      requestGate true len s2 true = true) ∧
    (∀ s2 : AIState, (clearError s2).error = none) := by
  have hns : ¬ rid ≠ s.activeRequestId := by omega
  refine ⟨?_, ?_, ?_, ?_, ?_, ?_⟩
  · intro h
    have hb : (strIncludes msg "429" || strIncludes msg "quota") = true := by
      rcases h with h | h <;> simp [h]
    constructor
    · unfold completeFailure
      rw [if_neg hns, if_pos hb]
    · decide
  · intro h1 h2
    have hb : ¬ ((strIncludes msg "429" || strIncludes msg "quota") = true) := by
      simp [h1, h2]
    constructor
    · unfold completeFailure
      rw [if_neg hns, if_neg hb]
    · decide
  · unfold completeFailure
    rw [if_neg hns]
    split <;> rfl
  · intro s2 he apiKey len
    unfold requestGate
    rcases hse : s2.error with _ | err
    · rw [hse] at he
      cases he
    · simp [hse]
  · intro s2 len hlen
    unfold requestGate
    simp [hlen]
  · intro s2
    rfl

/-- Witness for C8's amended theorem at a non-stale failure of request 1 with
a rate-limit message. -/
theorem claim_C8_failure_classification_witness :
    (strIncludes "got HTTP 429" "429" = true ∨
        strIncludes "got HTTP 429" "quota" = true →
      completeFailure aiStateA 1 "got HTTP 429" =
        { aiStateA with
            error := some ⟨"Rate limit exceeded (Free Tier). Pausing AI...",
                           .quota, some 30000⟩,
            suggestion := none, isThinking := false } ∧
      errorClearDelay ⟨"Rate limit exceeded (Free Tier). Pausing AI...",
                       .quota, some 30000⟩ = 30000) ∧
    (strIncludes "got HTTP 429" "429" = false →
      strIncludes "got HTTP 429" "quota" = false →
      completeFailure aiStateA 1 "got HTTP 429" =
        { aiStateA with error := some ⟨"AI connection failed", .network, none⟩,
                        suggestion := none, isThinking := false } ∧
      errorClearDelay ⟨"AI connection failed", .network, none⟩ = 5000) ∧
    (completeFailure aiStateA 1 "got HTTP 429").suggestion = none ∧
    (∀ s2 : AIState, s2.error.isSome = true →
      ∀ (apiKey : Bool) (len : Nat), requestGate apiKey len s2 false = false) ∧
    (∀ s2 : AIState, ∀ len : Nat, 5 ≤ len →
      requestGate true len s2 true = true) ∧
    (∀ s2 : AIState, (clearError s2).error = none) :=
  claim_C8_failure_classification aiStateA 1 "got HTTP 429" rfl

/-- Dispatching any single well-typed editor action preserves the
derived-dirty-flag invariant of the current state value, and leaves the
reducer registry unchanged. -/
theorem editor_dispatch_dirty {e : StateEngine EditorStateShape EditorPayload}
    (hred : e.reducers = editorReducers) (a : EditorAction)
    (h : dirtyInvariant e.state.val) :
    dirtyInvariant (dispatch e a.toAction).1.state.val ∧
    (dispatch e a.toAction).1.reducers = editorReducers := by
  refine ⟨?_, by rw [dispatch_fst, dispatchCore_reducers, hred]⟩
  rw [dispatch_fst]
  unfold dispatchCore
  nth_rewrite 1 [hred]
  unfold dirtyInvariant at h
  cases a with
  | SET_CONTENT s =>
    show dirtyInvariant (pushHistory { e with
        state := ⟨e.nextRef,
          { e.state.val with
              content := s
              isDirty := decide (s ≠ e.state.val.lastSavedContent) }⟩
        nextRef := e.nextRef + 1 }).state.val
    rw [pushHistory_state]
    unfold dirtyInvariant
    rfl
  | SET_CURSOR n =>
    show dirtyInvariant (pushHistory { e with
        state := ⟨e.nextRef, { e.state.val with cursorPosition := n }⟩
        nextRef := e.nextRef + 1 }).state.val
    rw [pushHistory_state]
    unfold dirtyInvariant
    exact h
  | SET_SELECTION r =>
    show dirtyInvariant (pushHistory { e with
        state := ⟨e.nextRef, { e.state.val with selection := r }⟩
        nextRef := e.nextRef + 1 }).state.val
    rw [pushHistory_state]
    unfold dirtyInvariant
    exact h
  | SET_FILE_PATH fp =>
    show dirtyInvariant (pushHistory { e with
        state := ⟨e.nextRef, { e.state.val with filePath := fp }⟩
        nextRef := e.nextRef + 1 }).state.val
    rw [pushHistory_state]
    unfold dirtyInvariant
    exact h
  | SET_LANGUAGE s =>
    show dirtyInvariant (pushHistory { e with
        state := ⟨e.nextRef, { e.state.val with language := s }⟩
        nextRef := e.nextRef + 1 }).state.val
    rw [pushHistory_state]
    unfold dirtyInvariant
    exact h
  | MARK_SAVED =>
    show dirtyInvariant (pushHistory { e with
        state := ⟨e.nextRef,
          { e.state.val with
              isDirty := false
              lastSavedContent := e.state.val.content }⟩
        nextRef := e.nextRef + 1 }).state.val
    rw [pushHistory_state]
    unfold dirtyInvariant
    simp
  | INSERT_TEXT position text =>
    show dirtyInvariant (pushHistory { e with
        state := ⟨e.nextRef,
          { e.state.val with
              content := jsSlice2 e.state.val.content 0 position ++ text
                         ++ jsSlice1 e.state.val.content position
              cursorPosition := position + text.length
              isDirty := decide ((jsSlice2 e.state.val.content 0 position ++ text
                         ++ jsSlice1 e.state.val.content position)
                         ≠ e.state.val.lastSavedContent) }⟩
        nextRef := e.nextRef + 1 }).state.val
    rw [pushHistory_state]
    unfold dirtyInvariant
    rfl
  | DELETE_RANGE r =>
    show dirtyInvariant (pushHistory { e with
        state := ⟨e.nextRef,
          { e.state.val with
              content := jsSlice2 e.state.val.content 0 r.fromPos
                         ++ jsSlice1 e.state.val.content r.toPos
              cursorPosition := r.fromPos
              selection := ⟨r.fromPos, r.fromPos⟩
              isDirty := decide ((jsSlice2 e.state.val.content 0 r.fromPos
                         ++ jsSlice1 e.state.val.content r.toPos)
                         ≠ e.state.val.lastSavedContent) }⟩
        nextRef := e.nextRef + 1 }).state.val
    rw [pushHistory_state]
    unfold dirtyInvariant
    rfl
  | REPLACE_RANGE r text =>
    show dirtyInvariant (pushHistory { e with
        state := ⟨e.nextRef,
          { e.state.val with
              content := jsSlice2 e.state.val.content 0 r.fromPos ++ text
                         ++ jsSlice1 e.state.val.content r.toPos
              cursorPosition := r.fromPos + text.length
              selection := ⟨r.fromPos + text.length, r.fromPos + text.length⟩
              isDirty := decide ((jsSlice2 e.state.val.content 0 r.fromPos ++ text
                         ++ jsSlice1 e.state.val.content r.toPos)
                         ≠ e.state.val.lastSavedContent) }⟩
        nextRef := e.nextRef + 1 }).state.val
    rw [pushHistory_state]
    unfold dirtyInvariant
    rfl

/-- C7: in the editor domain store, every state reachable from the default
initial document by dispatching well-typed editor actions satisfies the
derived-flag invariant `isDirty = (content ≠ lastSavedContent)`. -/
theorem claim_C7_dirty_flag_invariant (depth : Nat) (acts : List EditorAction) :
    dirtyInvariant
      ((dispatchList (createEditorStateEngine depth)
          (acts.map EditorAction.toAction)).getState).val := by
  have hgen : ∀ (e : StateEngine EditorStateShape EditorPayload),
      e.reducers = editorReducers → dirtyInvariant e.state.val →
      dirtyInvariant (dispatchList e (acts.map EditorAction.toAction)).state.val := by
    induction acts with
    | nil => exact fun e _ h => h
    | cons a rest ih =>
      intro e hred h
      have step := editor_dispatch_dirty hred a h
      exact ih _ step.2 step.1
  apply hgen
  · unfold createEditorStateEngine new
    rw [pushHistory_reducers]
  · have hst : (createEditorStateEngine depth).state.val =
        createInitialEditorState := by
      unfold createEditorStateEngine new
      rw [pushHistory_state]
    rw [hst]
    unfold dirtyInvariant createInitialEditorState
    decide

end CodeLab

